import Mathlib

/-!
Verification of the session clock and time-accounting engine of the
hooptime-tracker application (`src/App.tsx`, `src/types.ts`,
`src/components/SubstitutionModal.tsx`).

The TypeScript state and handlers are shallowly embedded as Lean
definitions: JS numbers holding whole seconds / millisecond timestamps
become `Int`, JS objects keyed by period number become association lists
`List (Nat × Int)` with unique keys, JS arrays become `List`, and the
React state-updater functions become pure functions on explicit state
records.  Reactive `useEffect` couplings (the ledger pairing effect, the
expired-period bookkeeping effects) are embedded as explicit functions
applied after each state transition, in the order React runs them.
-/

namespace Hooptime

/-- Model of `PlayerStats` from `types.ts`: `periodMinutes` is the JS object
mapping period number to seconds accumulated in that period (association
list with unique keys, mirroring a JS object); `totalMinutes` holds total
seconds (the field names keep the source's misnomer). -/
structure PlayerStats where
  playerId : String
  periodMinutes : List (Nat × Int)
  totalMinutes : Int
deriving Repr, DecidableEq

/-- JS read `s.periodMinutes[period] || 0`: the value stored at `period`,
defaulting to 0 when the key is absent (a stored 0 is falsy and also
yields 0, so `getD 0` is exact). -/
def lookupPeriod (l : List (Nat × Int)) (p : Nat) : Int :=
  (l.lookup p).getD 0

/-- JS object spread `{ ...obj, [p]: v }`: replaces the value at key `p`
when present (keeping key order), otherwise appends the new key at the
end, exactly as JS object key insertion does. -/
def upsertPeriod (l : List (Nat × Int)) (p : Nat) (v : Int) : List (Nat × Int) :=
  if p ∈ l.map Prod.fst then
    l.map (fun kv => if kv.1 = p then (p, v) else kv)
  else
    l ++ [(p, v)]

/-- Values stored in the per-period map (`Object.values(s.periodMinutes)`). -/
def periodValues (s : PlayerStats) : List Int :=
  s.periodMinutes.map Prod.snd

/-- Sum of the per-period seconds of one record. -/
def sumPeriodSeconds (s : PlayerStats) : Int :=
  (periodValues s).sum

/-- Body of the `map` inside `updatePlayerStats` (src/App.tsx lines
706-719), acting on a single record. -/
def updateOne (secondsToAdd : Int) (currentOnCourt : List String) (period : Nat)
    (s : PlayerStats) : PlayerStats :=
  if s.playerId ∉ currentOnCourt then s
  else
    let currentPeriodSeconds := lookupPeriod s.periodMinutes period
    let nextPeriodSeconds := max 0 (currentPeriodSeconds + secondsToAdd)
    let actualDelta := nextPeriodSeconds - currentPeriodSeconds
    let nextTotalSeconds := max 0 (s.totalMinutes + actualDelta)
    { s with
      periodMinutes := upsertPeriod s.periodMinutes period nextPeriodSeconds
      totalMinutes := nextTotalSeconds }

/-- Model of `updatePlayerStats` (src/App.tsx lines 704-721): the early
return on `secondsToAdd === 0 || currentOnCourt.length === 0` leaves the
stats untouched; otherwise every record is mapped through `updateOne`. -/
def updatePlayerStats (secondsToAdd : Int) (currentOnCourt : List String) (period : Nat)
    (stats : List PlayerStats) : List PlayerStats :=
  if secondsToAdd = 0 ∨ currentOnCourt = [] then stats
  else stats.map (updateOne secondsToAdd currentOnCourt period)

/-- Well-formedness of one ledger record: the JS object structurally has
unique keys, every stored per-period value is nonnegative, and the
running total equals the sum of the per-period values (the spec's central
per-record invariant). -/
def recordWF (s : PlayerStats) : Prop :=
  (s.periodMinutes.map Prod.fst).Nodup ∧
    (∀ v ∈ periodValues s, 0 ≤ v) ∧
    s.totalMinutes = sumPeriodSeconds s

instance (s : PlayerStats) : Decidable (recordWF s) := by
  unfold recordWF; infer_instance

/-- Sum of all records' totals, as in
`stats.reduce((sum, s) => sum + (s.totalMinutes || 0), 0)`. -/
def sumTotals (stats : List PlayerStats) : Int :=
  (stats.map PlayerStats.totalMinutes).sum

section AssocLemmas

theorem lookupPeriod_nil (p : Nat) : lookupPeriod [] p = 0 := rfl

theorem lookupPeriod_cons (k : Nat) (w : Int) (t : List (Nat × Int)) (p : Nat) :
    lookupPeriod ((k, w) :: t) p = if p = k then w else lookupPeriod t p := by
  by_cases h : p = k
  · simp [lookupPeriod, List.lookup, h]
  · have hb : (p == k) = false := by simpa using h
    simp [lookupPeriod, List.lookup, hb, h]

theorem lookup_eq_zero_of_not_mem {l : List (Nat × Int)} {p : Nat}
    (h : p ∉ l.map Prod.fst) : lookupPeriod l p = 0 := by
  induction l with
  | nil => rfl
  | cons kv t ih =>
    obtain ⟨k, w⟩ := kv
    simp only [List.map_cons, List.mem_cons, not_or] at h
    rw [lookupPeriod_cons, if_neg h.1]
    exact ih h.2

theorem map_replace_of_not_mem {l : List (Nat × Int)} {p : Nat} {v : Int}
    (h : p ∉ l.map Prod.fst) :
    l.map (fun kv => if kv.1 = p then (p, v) else kv) = l := by
  induction l with
  | nil => rfl
  | cons kv t ih =>
    obtain ⟨k, w⟩ := kv
    simp only [List.map_cons, List.mem_cons, not_or] at h
    have hne : ¬ (k = p) := fun hc => h.1 hc.symm
    simp only [List.map_cons, hne, if_false]
    rw [ih h.2]

theorem map_fst_upsertPeriod (l : List (Nat × Int)) (p : Nat) (v : Int) :
    (upsertPeriod l p v).map Prod.fst =
      if p ∈ l.map Prod.fst then l.map Prod.fst else l.map Prod.fst ++ [p] := by
  unfold upsertPeriod
  by_cases h : p ∈ l.map Prod.fst
  · simp only [h, if_true, List.map_map]
    refine List.map_congr_left ?_
    intro kv _
    by_cases hk : kv.1 = p
    · simp [hk]
    · simp [hk]
  · simp [h]

theorem nodup_keys_upsertPeriod (l : List (Nat × Int)) (p : Nat) (v : Int)
    (h : (l.map Prod.fst).Nodup) : ((upsertPeriod l p v).map Prod.fst).Nodup := by
  rw [map_fst_upsertPeriod]
  by_cases hp : p ∈ l.map Prod.fst
  · simpa [hp]
  · rw [if_neg hp]
    exact h.append (List.nodup_singleton p) ((List.disjoint_singleton).mpr hp)

theorem sumValues_upsertPeriod (l : List (Nat × Int)) (p : Nat) (v : Int)
    (h : (l.map Prod.fst).Nodup) :
    ((upsertPeriod l p v).map Prod.snd).sum = (l.map Prod.snd).sum - lookupPeriod l p + v := by
  induction l with
  | nil =>
    simp [upsertPeriod, lookupPeriod, List.lookup]
  | cons kv t ih =>
    obtain ⟨k, w⟩ := kv
    simp only [List.map_cons, List.nodup_cons] at h
    obtain ⟨hk, ht⟩ := h
    by_cases hkp : k = p
    · subst hkp
      have hcond : k ∈ ((k, w) :: t).map Prod.fst := by simp
      unfold upsertPeriod
      rw [if_pos hcond]
      simp only [List.map_cons, if_pos rfl]
      rw [map_replace_of_not_mem hk, lookupPeriod_cons, if_pos rfl]
      simp only [List.map_cons, List.sum_cons, if_true]
      ring
    · rw [lookupPeriod_cons, if_neg (fun hc => hkp hc.symm)]
      by_cases hp : p ∈ t.map Prod.fst
      · have hcond : p ∈ ((k, w) :: t).map Prod.fst := by simp [hp]
        unfold upsertPeriod
        rw [if_pos hcond]
        simp only [List.map_cons, hkp, if_false]
        have iht := ih ht
        unfold upsertPeriod at iht
        rw [if_pos hp] at iht
        simp only [List.map_cons, List.sum_cons, iht]
        ring
      · have hcond : p ∉ ((k, w) :: t).map Prod.fst := by
          simp only [List.map_cons, List.mem_cons, not_or]
          exact ⟨fun hc => hkp hc.symm, hp⟩
        unfold upsertPeriod
        rw [if_neg hcond, lookup_eq_zero_of_not_mem hp]
        simp only [List.map_append, List.sum_append, List.map_cons, List.sum_cons,
          List.map_nil, List.sum_nil]
        ring

theorem mem_values_upsertPeriod {l : List (Nat × Int)} {p : Nat} {v w : Int}
    (h : w ∈ (upsertPeriod l p v).map Prod.snd) : w ∈ l.map Prod.snd ∨ w = v := by
  unfold upsertPeriod at h
  by_cases hp : p ∈ l.map Prod.fst
  · rw [if_pos hp, List.map_map] at h
    obtain ⟨kv, hkv, hw⟩ := List.mem_map.mp h
    by_cases hk : kv.1 = p
    · right
      simp only [Function.comp_apply, hk, if_true] at hw
      exact hw.symm
    · left
      simp only [Function.comp_apply, hk, if_false] at hw
      exact List.mem_map.mpr ⟨kv, hkv, hw⟩
  · rw [if_neg hp, List.map_append, List.mem_append] at h
    rcases h with h | h
    · exact Or.inl h
    · right
      simpa using h

theorem lookup_nonneg {l : List (Nat × Int)} {p : Nat}
    (h : ∀ v ∈ l.map Prod.snd, 0 ≤ v) : 0 ≤ lookupPeriod l p := by
  induction l with
  | nil => simp [lookupPeriod, List.lookup]
  | cons kv t ih =>
    obtain ⟨k, w⟩ := kv
    rw [lookupPeriod_cons]
    by_cases hp : p = k
    · rw [if_pos hp]
      exact h w (by simp)
    · rw [if_neg hp]
      exact ih (fun v hv => h v (by simp [hv]))

theorem lookup_le_sum {l : List (Nat × Int)} {p : Nat}
    (h : ∀ v ∈ l.map Prod.snd, 0 ≤ v) : lookupPeriod l p ≤ (l.map Prod.snd).sum := by
  induction l with
  | nil => simp [lookupPeriod, List.lookup]
  | cons kv t ih =>
    obtain ⟨k, w⟩ := kv
    rw [lookupPeriod_cons]
    simp only [List.map_cons, List.sum_cons]
    by_cases hpk : p = k
    · rw [if_pos hpk]
      have h0 : 0 ≤ (t.map Prod.snd).sum :=
        List.sum_nonneg (fun v hv => h v (by simp [hv]))
      linarith
    · rw [if_neg hpk]
      have hw : 0 ≤ w := h w (by simp)
      have ht := ih (fun v hv => h v (by simp [hv]))
      linarith

end AssocLemmas

section UpsertLookup

theorem lookup_map_replace {l : List (Nat × Int)} {p : Nat} {v : Int}
    (hp : p ∈ l.map Prod.fst) :
    lookupPeriod (l.map (fun kv => if kv.1 = p then (p, v) else kv)) p = v := by
  induction l with
  | nil => simp at hp
  | cons kv t ih =>
    obtain ⟨k, w⟩ := kv
    by_cases hk : k = p
    · subst hk
      have hc : (((k, w) : Nat × Int).1 = k) := rfl
      rw [List.map_cons, if_pos hc, lookupPeriod_cons, if_pos rfl]
    · simp only [List.map_cons, hk, if_false]
      rw [lookupPeriod_cons, if_neg (fun hc => hk hc.symm)]
      refine ih ?_
      simp only [List.map_cons, List.mem_cons] at hp
      rcases hp with hp | hp
      · exact absurd hp.symm hk
      · exact hp

theorem lookup_append_single {l : List (Nat × Int)} {p : Nat} {v : Int}
    (hp : p ∉ l.map Prod.fst) :
    lookupPeriod (l ++ [(p, v)]) p = v := by
  induction l with
  | nil => simp [lookupPeriod, List.lookup]
  | cons kv t ih =>
    obtain ⟨k, w⟩ := kv
    simp only [List.map_cons, List.mem_cons, not_or] at hp
    rw [List.cons_append, lookupPeriod_cons, if_neg hp.1]
    exact ih hp.2

theorem lookup_upsertPeriod_self (l : List (Nat × Int)) (p : Nat) (v : Int) :
    lookupPeriod (upsertPeriod l p v) p = v := by
  unfold upsertPeriod
  by_cases hp : p ∈ l.map Prod.fst
  · rw [if_pos hp]
    exact lookup_map_replace hp
  · rw [if_neg hp]
    exact lookup_append_single hp

end UpsertLookup

section LedgerUpdate

/-- All records of a stats list are well formed. -/
def statsWF (stats : List PlayerStats) : Prop :=
  ∀ r ∈ stats, recordWF r

instance (stats : List PlayerStats) : Decidable (statsWF stats) := by
  unfold statsWF; infer_instance

theorem updateOne_not_mem {d : Int} {oc : List String} {p : Nat} {s : PlayerStats}
    (h : s.playerId ∉ oc) : updateOne d oc p s = s := by
  simp [updateOne, h]

theorem updateOne_playerId (d : Int) (oc : List String) (p : Nat) (s : PlayerStats) :
    (updateOne d oc p s).playerId = s.playerId := by
  unfold updateOne
  by_cases h : s.playerId ∉ oc
  · rw [if_pos h]
  · rw [if_neg h]

theorem updateOne_mem {d : Int} {oc : List String} {p : Nat} {s : PlayerStats}
    (hmem : s.playerId ∈ oc) :
    updateOne d oc p s =
      { playerId := s.playerId
        periodMinutes := upsertPeriod s.periodMinutes p
          (max 0 (lookupPeriod s.periodMinutes p + d))
        totalMinutes := max 0 (s.totalMinutes +
          (max 0 (lookupPeriod s.periodMinutes p + d) - lookupPeriod s.periodMinutes p)) } := by
  unfold updateOne
  rw [if_neg (not_not_intro hmem)]

theorem updateOne_wf {d : Int} {oc : List String} {p : Nat} {s : PlayerStats}
    (h : recordWF s) : recordWF (updateOne d oc p s) := by
  obtain ⟨hkeys, hvals, htot⟩ := h
  by_cases hmem : s.playerId ∈ oc
  · rw [updateOne_mem hmem]
    unfold periodValues at hvals
    refine ⟨nodup_keys_upsertPeriod _ _ _ hkeys, ?_, ?_⟩
    · intro v hv
      unfold periodValues at hv
      rcases mem_values_upsertPeriod hv with hv | hv
      · exact hvals v hv
      · rw [hv]
        exact le_max_left 0 _
    · show max 0 (s.totalMinutes + (max 0 (lookupPeriod s.periodMinutes p + d) -
          lookupPeriod s.periodMinutes p)) = _
      unfold sumPeriodSeconds periodValues
      rw [sumValues_upsertPeriod _ _ _ hkeys]
      have hcs : lookupPeriod s.periodMinutes p ≤ (s.periodMinutes.map Prod.snd).sum :=
        lookup_le_sum hvals
      have hn0 : 0 ≤ max 0 (lookupPeriod s.periodMinutes p + d) := le_max_left 0 _
      have htot' : s.totalMinutes = (s.periodMinutes.map Prod.snd).sum := htot
      rw [htot', max_eq_right (by linarith)]
      ring
  · rw [updateOne_not_mem hmem]
    exact ⟨hkeys, hvals, htot⟩

theorem updateOne_total {d : Int} {oc : List String} {p : Nat} {s : PlayerStats}
    (h : recordWF s) (hmem : s.playerId ∈ oc)
    (hge : 0 ≤ lookupPeriod s.periodMinutes p + d) :
    (updateOne d oc p s).totalMinutes = s.totalMinutes + d := by
  obtain ⟨hkeys, hvals, htot⟩ := h
  rw [updateOne_mem hmem]
  show max 0 (s.totalMinutes + (max 0 (lookupPeriod s.periodMinutes p + d) -
      lookupPeriod s.periodMinutes p)) = s.totalMinutes + d
  rw [max_eq_right hge]
  have hcs : lookupPeriod s.periodMinutes p ≤ sumPeriodSeconds s := lookup_le_sum hvals
  rw [max_eq_right (by rw [htot]; linarith)]
  ring

theorem updateOne_lookup {d : Int} {oc : List String} {p : Nat} {s : PlayerStats}
    (hmem : s.playerId ∈ oc) :
    lookupPeriod (updateOne d oc p s).periodMinutes p =
      max 0 (lookupPeriod s.periodMinutes p + d) := by
  rw [updateOne_mem hmem]
  exact lookup_upsertPeriod_self _ _ _

theorem statsWF_updatePlayerStats {d : Int} {oc : List String} {p : Nat}
    {stats : List PlayerStats} (h : statsWF stats) :
    statsWF (updatePlayerStats d oc p stats) := by
  unfold updatePlayerStats
  by_cases hg : d = 0 ∨ oc = []
  · rw [if_pos hg]; exact h
  · rw [if_neg hg]
    intro r' hr'
    obtain ⟨r, hr, hrr⟩ := List.mem_map.mp hr'
    rw [← hrr]
    exact updateOne_wf (h r hr)

/-- C2: per-record consistency.  A ledger update (`updatePlayerStats` with
any signed seconds, present-id set, and period) keeps every record's
total seconds equal to the sum of its per-period seconds, provided each
record satisfied the invariant beforehand (well-formedness additionally
records the structural facts that a JS object has unique keys and that
accumulated per-period seconds are nonnegative, both of which hold at
every observable point and are preserved here). -/
theorem updatePlayerStats_preserves_record_consistency
    (d : Int) (oc : List String) (p : Nat) (stats : List PlayerStats)
    (h : statsWF stats) :
    ∀ r' ∈ updatePlayerStats d oc p stats, r'.totalMinutes = sumPeriodSeconds r' := by
  intro r' hr'
  exact (statsWF_updatePlayerStats h r' hr').2.2

/-- Witness for C2 at a concrete input: one record with 5 seconds in
period 1, updated by 3 seconds for its on-court player, ends with
total 8 = sum of per-period seconds. -/
theorem updatePlayerStats_preserves_record_consistency_witness :
    (⟨"p1", [(1, 8)], 8⟩ : PlayerStats).totalMinutes =
      sumPeriodSeconds ⟨"p1", [(1, 8)], 8⟩ :=
  updatePlayerStats_preserves_record_consistency 3 ["p1"] 1 [⟨"p1", [(1, 5)], 5⟩]
    (by decide) ⟨"p1", [(1, 8)], 8⟩ (by decide)

end LedgerUpdate

section ClockEngine

/-- Model of `GameConfig` from `types.ts`, restricted to the fields the
clock engine reads (`periodType` and `opponentName` are cosmetic labels
that no claim touches). -/
structure GameConfig where
  periodCount : Nat
  periodMinutes : Nat
  periodSeconds : Nat
deriving Repr, DecidableEq

/-- Full period length `(config.periodMinutes * 60) + config.periodSeconds`. -/
def periodLengthSeconds (cfg : GameConfig) : Int :=
  (cfg.periodMinutes * 60 + cfg.periodSeconds : Nat)

/-- Model of `GameState` from `types.ts`; timestamps are epoch
milliseconds as `Int`. -/
structure GameState where
  currentPeriod : Nat
  remainingSeconds : Int
  isRunning : Bool
  onCourtIds : List String
  lastClockUpdate : Option Int
deriving Repr, DecidableEq

/-- JS truthiness read `x || dflt` on a nullable number: `null` and `0`
are falsy and give the default. -/
def jsOr (o : Option Int) (dflt : Int) : Int :=
  match o with
  | none => dflt
  | some t => if t = 0 then dflt else t

/-- Model of the interval callback's state updater (src/App.tsx lines
743-767), the clock engine's `tick(now)`.  `Int.fdiv` is JS
`Math.floor(x / 1000)` on integers; in the branch where it is used,
`elapsedMs ≥ 1000 > 0`, so `Int.emod` agrees with the JS `%` operator. -/
def tick (now : Int) (prev : GameState) : GameState :=
  if prev.remainingSeconds ≤ 0 then
    { prev with isRunning := false, remainingSeconds := 0 }
  else
    let lastUpdate := jsOr prev.lastClockUpdate now
    let elapsedMs := now - lastUpdate
    let elapsedSecs := Int.fdiv elapsedMs 1000
    if 1 ≤ elapsedSecs then
      let playableSeconds := min elapsedSecs prev.remainingSeconds
      let nextRemaining := max 0 (prev.remainingSeconds - playableSeconds)
      { prev with
        remainingSeconds := nextRemaining
        isRunning := if nextRemaining = 0 then false else prev.isRunning
        lastClockUpdate := if nextRemaining = 0 then none else some (now - elapsedMs % 1000) }
    else prev

/-- Model of `toggleClock` (src/App.tsx lines 733-738). -/
def toggleClock (now : Int) (prev : GameState) : GameState :=
  let isRunning := !prev.isRunning
  { prev with
    isRunning := isRunning
    lastClockUpdate := if isRunning then some now else none }

/-- Model of `adjustClockSeconds` (src/App.tsx lines 841-854): guarded by
"clock stopped" and "current period not expired"; clamps the new
remaining time to `[0, period length]` and reverse-applies the actual
clock delta to the ledger via `updatePlayerStats(-actualDelta, ...)`. -/
def adjustClockSeconds (delta : Int) (cfg : GameConfig) (expiredPeriods : List Nat)
    (gs : GameState) (stats : List PlayerStats) : GameState × List PlayerStats :=
  if gs.isRunning then (gs, stats)
  else if gs.currentPeriod ∈ expiredPeriods then (gs, stats)
  else
    let maxSeconds := periodLengthSeconds cfg
    let nextSeconds := min maxSeconds (max 0 (gs.remainingSeconds + delta))
    let actualDelta := nextSeconds - gs.remainingSeconds
    if actualDelta = 0 then (gs, stats)
    else
      ({ gs with remainingSeconds := nextSeconds, lastClockUpdate := none },
        updatePlayerStats (-actualDelta) gs.onCourtIds gs.currentPeriod stats)

/-- Model of `advanceToNextPeriod` (src/App.tsx lines 856-873); the
second component is the `isGameComplete` flag set when already on the
final period. -/
def advanceToNextPeriod (cfg : GameConfig) (expiredPeriods : List Nat)
    (gs : GameState) : GameState × Bool :=
  if gs.currentPeriod < cfg.periodCount then
    let nextPeriodNumber := gs.currentPeriod + 1
    let nextRemainingSeconds : Int :=
      if nextPeriodNumber ∈ expiredPeriods then 0 else periodLengthSeconds cfg
    ({ gs with
        currentPeriod := nextPeriodNumber
        remainingSeconds := nextRemainingSeconds
        isRunning := false
        lastClockUpdate := none }, false)
  else (gs, true)

/-- Model of `advanceToPrevPeriod` (src/App.tsx lines 875-888). -/
def advanceToPrevPeriod (cfg : GameConfig) (expiredPeriods : List Nat)
    (gs : GameState) : GameState :=
  if gs.currentPeriod ≤ 1 then gs
  else
    let prevPeriodNumber := gs.currentPeriod - 1
    let nextRemainingSeconds : Int :=
      if prevPeriodNumber ∈ expiredPeriods then 0 else periodLengthSeconds cfg
    { gs with
      currentPeriod := prevPeriodNumber
      remainingSeconds := nextRemainingSeconds
      isRunning := false
      lastClockUpdate := none }

/-- Combined session state seen by the expired-period effects. -/
structure SysState where
  gs : GameState
  stats : List PlayerStats
  expiredPeriods : List Nat
deriving Repr, DecidableEq

/-- Model of the mark-expired effect (src/App.tsx lines 790-796): when
remaining hits exactly 0 during the GAME phase, the current period is
added to the expired set (idempotently). -/
def markExpiredStep (s : SysState) : SysState :=
  if s.gs.remainingSeconds ≠ 0 then s
  else if s.gs.currentPeriod ∈ s.expiredPeriods then s
  else { s with expiredPeriods := s.expiredPeriods ++ [s.gs.currentPeriod] }

/-- Model of the expired-period pin effect (src/App.tsx lines 798-803):
while the current period is expired, the clock is forced to
remaining = 0, stopped, with no resume stamp. -/
def pinExpiredStep (s : SysState) : SysState :=
  if s.gs.currentPeriod ∉ s.expiredPeriods then s
  else if s.gs.remainingSeconds = 0 ∧ s.gs.isRunning = false then s
  else { s with gs := { s.gs with
          remainingSeconds := 0
          isRunning := false
          lastClockUpdate := none } }

/-- The two reactive effects, run in source order to their fixpoint
(React re-runs effects after each state commit; one round of
mark-then-pin is already stable). -/
def stabilize (s : SysState) : SysState :=
  pinExpiredStep (markExpiredStep s)

end ClockEngine

section ClockTheorems

/-- C3, counterexample: at the clock state (period 1, remaining = 0,
running, resume stamp 500 ms) with now = 600 ms, fewer than 1 whole
second has elapsed, yet `tick` is not a no-op (it stops the clock), and
although remaining is exactly 0 the resume stamp is not cleared. -/
theorem tick_zero_entry_counterexample :
    tick 600 ⟨1, 0, true, [], some 500⟩ ≠ ⟨1, 0, true, [], some 500⟩ ∧
    (tick 600 ⟨1, 0, true, [], some 500⟩).remainingSeconds = 0 ∧
    (tick 600 ⟨1, 0, true, [], some 500⟩).lastClockUpdate = some 500 := by
  decide

/-- C3, amended: for every clock state with running = true and positive
remaining time, `tick now` is a no-op when fewer than 1 whole second has
elapsed since last-resume; otherwise it decrements remaining by
`min(floor(elapsedMs/1000), remaining)`, and either remaining reaches
exactly 0 — then running is set to false and the resume stamp cleared —
or the stamp is re-set to `now - (elapsedMs mod 1000)` with the clock
still running; remaining never goes below zero.  (When remaining is
already 0 at entry the code instead stops the clock without touching the
stamp; see the counterexample.) -/
theorem tick_contract (now : Int) (prev : GameState)
    (hrun : prev.isRunning = true) (hpos : 0 < prev.remainingSeconds) :
    (Int.fdiv (now - jsOr prev.lastClockUpdate now) 1000 < 1 → tick now prev = prev) ∧
    (1 ≤ Int.fdiv (now - jsOr prev.lastClockUpdate now) 1000 →
      (tick now prev).remainingSeconds = prev.remainingSeconds -
          min (Int.fdiv (now - jsOr prev.lastClockUpdate now) 1000) prev.remainingSeconds ∧
      ((tick now prev).remainingSeconds = 0 →
        (tick now prev).isRunning = false ∧ (tick now prev).lastClockUpdate = none) ∧
      (0 < (tick now prev).remainingSeconds →
        (tick now prev).isRunning = true ∧
        (tick now prev).lastClockUpdate =
          some (now - (now - jsOr prev.lastClockUpdate now) % 1000))) ∧
    0 ≤ (tick now prev).remainingSeconds := by
  have hnle : ¬ prev.remainingSeconds ≤ 0 := not_le.mpr hpos
  by_cases hE : 1 ≤ Int.fdiv (now - jsOr prev.lastClockUpdate now) 1000
  · have htick : tick now prev = { prev with
        remainingSeconds := max 0 (prev.remainingSeconds -
          min (Int.fdiv (now - jsOr prev.lastClockUpdate now) 1000) prev.remainingSeconds)
        isRunning := if max 0 (prev.remainingSeconds -
          min (Int.fdiv (now - jsOr prev.lastClockUpdate now) 1000) prev.remainingSeconds) = 0
          then false else prev.isRunning
        lastClockUpdate := if max 0 (prev.remainingSeconds -
          min (Int.fdiv (now - jsOr prev.lastClockUpdate now) 1000) prev.remainingSeconds) = 0
          then none
          else some (now - (now - jsOr prev.lastClockUpdate now) % 1000) } := by
      simp only [tick, if_neg hnle, if_pos hE]
    have hmaxeq : max 0 (prev.remainingSeconds -
        min (Int.fdiv (now - jsOr prev.lastClockUpdate now) 1000) prev.remainingSeconds) =
        prev.remainingSeconds -
          min (Int.fdiv (now - jsOr prev.lastClockUpdate now) 1000) prev.remainingSeconds := by
      have : min (Int.fdiv (now - jsOr prev.lastClockUpdate now) 1000) prev.remainingSeconds ≤
          prev.remainingSeconds := min_le_right _ _
      omega
    refine ⟨fun hlt => absurd hE (not_le.mpr hlt), fun _ => ?_, ?_⟩
    · rw [htick]
      refine ⟨by simp, ?_, ?_⟩
      · intro h0
        simp only at h0 ⊢
        rw [if_pos (by omega : max 0 (prev.remainingSeconds -
          min (Int.fdiv (now - jsOr prev.lastClockUpdate now) 1000) prev.remainingSeconds) = 0)]
        rw [if_pos (by omega : max 0 (prev.remainingSeconds -
          min (Int.fdiv (now - jsOr prev.lastClockUpdate now) 1000) prev.remainingSeconds) = 0)]
        exact ⟨rfl, rfl⟩
      · intro h0
        simp only at h0 ⊢
        rw [if_neg (by omega : ¬ max 0 (prev.remainingSeconds -
          min (Int.fdiv (now - jsOr prev.lastClockUpdate now) 1000) prev.remainingSeconds) = 0)]
        rw [if_neg (by omega : ¬ max 0 (prev.remainingSeconds -
          min (Int.fdiv (now - jsOr prev.lastClockUpdate now) 1000) prev.remainingSeconds) = 0)]
        exact ⟨hrun, rfl⟩
    · rw [htick]
      simp only
      exact le_max_left 0 _
  · have htick : tick now prev = prev := by
      simp only [tick, if_neg hnle, if_neg hE]
    refine ⟨fun _ => htick, fun hge => absurd hge hE, ?_⟩
    rw [htick]
    omega

/-- Witness for C3 at a concrete input: remaining = 10 s, stamp = 1000 ms,
now = 4005 ms (3 whole elapsed seconds). -/
theorem tick_contract_witness :
    (tick 4005 ⟨1, 10, true, [], some 1000⟩).remainingSeconds =
      10 - min (Int.fdiv ((4005 : Int) - jsOr (some 1000) 4005) 1000) 10 :=
  ((tick_contract 4005 ⟨1, 10, true, [], some 1000⟩ rfl (by decide)).2.1 (by decide)).1

/-- C4, counterexample: clock stopped at remaining = 120 s (period length
120 s), one on-court participant with 50 s recorded in period 1.
`adjustClockSeconds (-10)` yields remaining = 110 s as claimed, but the
participant's period-1 seconds become 60 — they INcrease by 10 — whereas
the claim says the ledger is corrected by the same signed amount as the
applied delta (−10, i.e. a decrease to 40). -/
theorem adjustClockSeconds_counterexample :
    adjustClockSeconds (-10) ⟨4, 2, 0⟩ [] ⟨1, 120, false, ["p1"], none⟩
        [⟨"p1", [(1, 50)], 50⟩] =
      (⟨1, 110, false, ["p1"], none⟩, [⟨"p1", [(1, 60)], 60⟩]) ∧
    (60 : Int) ≠ 50 + (-10) := by
  decide

/-- C4, amended: whenever the clock is stopped and the current period is
not expired, `adjustClockSeconds delta` sets
remaining = clamp(remaining + delta, 0, period length) and corrects each
on-court participant's ledger by the NEGATION of the actual applied
clock delta (clamped so per-period seconds never go negative); in
particular with remaining = 120 s, a −10 adjustment yields remaining =
110 s and each then-on-court participant's period total increases by
10 s. -/
theorem adjustClockSeconds_spec (delta : Int) (cfg : GameConfig)
    (expiredPeriods : List Nat) (gs : GameState) (stats : List PlayerStats)
    (hrun : gs.isRunning = false) (hexp : gs.currentPeriod ∉ expiredPeriods) :
    (adjustClockSeconds delta cfg expiredPeriods gs stats).1.remainingSeconds =
        min (periodLengthSeconds cfg) (max 0 (gs.remainingSeconds + delta)) ∧
    (adjustClockSeconds delta cfg expiredPeriods gs stats).2 =
        updatePlayerStats
          (-(min (periodLengthSeconds cfg) (max 0 (gs.remainingSeconds + delta)) -
            gs.remainingSeconds))
          gs.onCourtIds gs.currentPeriod stats ∧
    List.Forall₂
      (fun r r' => recordWF r → r.playerId ∈ gs.onCourtIds →
        lookupPeriod r'.periodMinutes gs.currentPeriod =
          max 0 (lookupPeriod r.periodMinutes gs.currentPeriod -
            (min (periodLengthSeconds cfg) (max 0 (gs.remainingSeconds + delta)) -
              gs.remainingSeconds)))
      stats (adjustClockSeconds delta cfg expiredPeriods gs stats).2 := by
  have hbody : adjustClockSeconds delta cfg expiredPeriods gs stats =
      (if min (periodLengthSeconds cfg) (max 0 (gs.remainingSeconds + delta)) -
          gs.remainingSeconds = 0 then (gs, stats)
        else
          ({ gs with
              remainingSeconds :=
                min (periodLengthSeconds cfg) (max 0 (gs.remainingSeconds + delta))
              lastClockUpdate := none },
            updatePlayerStats
              (-(min (periodLengthSeconds cfg) (max 0 (gs.remainingSeconds + delta)) -
                gs.remainingSeconds))
              gs.onCourtIds gs.currentPeriod stats)) := by
    simp only [adjustClockSeconds, hrun, Bool.false_eq_true, if_false, if_neg hexp]
  set a := min (periodLengthSeconds cfg) (max 0 (gs.remainingSeconds + delta)) -
    gs.remainingSeconds with ha
  by_cases h0 : a = 0
  · rw [hbody, if_pos h0]
    have hrem : min (periodLengthSeconds cfg) (max 0 (gs.remainingSeconds + delta)) =
        gs.remainingSeconds := by omega
    have hstats : updatePlayerStats (-a) gs.onCourtIds gs.currentPeriod stats = stats := by
      have : -a = 0 := by omega
      rw [this]
      simp [updatePlayerStats]
    refine ⟨by simpa using hrem.symm, hstats.symm, ?_⟩
    refine List.forall₂_same.mpr ?_
    intro r _ hwf hmem
    have hcur : 0 ≤ lookupPeriod r.periodMinutes gs.currentPeriod := lookup_nonneg hwf.2.1
    omega
  · rw [hbody, if_neg h0]
    refine ⟨rfl, rfl, ?_⟩
    show List.Forall₂ _ stats (updatePlayerStats (-a) gs.onCourtIds gs.currentPeriod stats)
    by_cases hoc : gs.onCourtIds = []
    · have hupd : updatePlayerStats (-a) gs.onCourtIds gs.currentPeriod stats = stats := by
        simp [updatePlayerStats, hoc]
      rw [hupd]
      refine List.forall₂_same.mpr ?_
      intro r _ hwf hmem
      rw [hoc] at hmem
      simp at hmem
    · have hguard : ¬ (-a = 0 ∨ gs.onCourtIds = []) := by
        push_neg
        exact ⟨by omega, hoc⟩
      have hupd : updatePlayerStats (-a) gs.onCourtIds gs.currentPeriod stats =
          stats.map (updateOne (-a) gs.onCourtIds gs.currentPeriod) := by
        rw [updatePlayerStats, if_neg hguard]
      rw [hupd]
      rw [List.forall₂_map_right_iff]
      refine List.forall₂_same.mpr ?_
      intro r _ hwf hmem
      rw [updateOne_lookup hmem]
      omega

/-- Witness for C4 at a concrete input: the adjustment of the
counterexample scenario, through the amended theorem. -/
theorem adjustClockSeconds_spec_witness :
    (adjustClockSeconds (-10) ⟨4, 2, 0⟩ [] ⟨1, 120, false, ["p1"], none⟩
        [⟨"p1", [(1, 50)], 50⟩]).1.remainingSeconds =
      min (periodLengthSeconds ⟨4, 2, 0⟩) (max 0 (120 + (-10))) :=
  (adjustClockSeconds_spec (-10) ⟨4, 2, 0⟩ [] ⟨1, 120, false, ["p1"], none⟩
    [⟨"p1", [(1, 50)], 50⟩] rfl (by decide)).1

end ClockTheorems

section ExpiredGuard

/-- C6: expired-period guard.  (1) After the reactive effects settle,
whenever the current period is in the expired set the remaining time is
0 and the clock is not running; (2) manual adjustment on an expired
period is a complete no-op (remaining cannot be raised); (3) retreating
to an expired period pins remaining at 0 (not the full period length)
with the clock stopped. -/
theorem expired_period_guard :
    (∀ s : SysState,
      (stabilize s).gs.currentPeriod ∈ (stabilize s).expiredPeriods →
        (stabilize s).gs.remainingSeconds = 0 ∧ (stabilize s).gs.isRunning = false) ∧
    (∀ (delta : Int) (cfg : GameConfig) (expiredPeriods : List Nat) (gs : GameState)
        (stats : List PlayerStats), gs.currentPeriod ∈ expiredPeriods →
        adjustClockSeconds delta cfg expiredPeriods gs stats = (gs, stats)) ∧
    (∀ (cfg : GameConfig) (expiredPeriods : List Nat) (gs : GameState),
      1 < gs.currentPeriod → gs.currentPeriod - 1 ∈ expiredPeriods →
        (advanceToPrevPeriod cfg expiredPeriods gs).remainingSeconds = 0 ∧
        (advanceToPrevPeriod cfg expiredPeriods gs).isRunning = false) := by
  refine ⟨?_, ?_, ?_⟩
  · intro s
    unfold stabilize pinExpiredStep
    set m := markExpiredStep s with hm
    by_cases h1 : m.gs.currentPeriod ∉ m.expiredPeriods
    · rw [if_pos h1]
      intro hmem
      exact absurd hmem h1
    · rw [if_neg h1]
      by_cases h2 : m.gs.remainingSeconds = 0 ∧ m.gs.isRunning = false
      · rw [if_pos h2]
        intro _
        exact h2
      · rw [if_neg h2]
        intro _
        exact ⟨rfl, rfl⟩
  · intro delta cfg expiredPeriods gs stats hmem
    unfold adjustClockSeconds
    by_cases hr : gs.isRunning
    · rw [if_pos hr]
    · rw [if_neg hr, if_pos hmem]
  · intro cfg expiredPeriods gs h1 hmem
    unfold advanceToPrevPeriod
    rw [if_neg (by omega)]
    simp only [if_pos hmem]
    exact ⟨trivial, trivial⟩

/-- Witness for C6 at concrete inputs: a state that just hit 0 while
running on period 1 is pinned to (0, stopped); a +10 adjustment on an
expired period changes nothing; retreating from period 2 to expired
period 1 reads remaining = 0, stopped. -/
theorem expired_period_guard_witness :
    ((stabilize ⟨⟨1, 0, true, [], some 5⟩, [], []⟩).gs.remainingSeconds = 0 ∧
      (stabilize ⟨⟨1, 0, true, [], some 5⟩, [], []⟩).gs.isRunning = false) ∧
    adjustClockSeconds 10 ⟨4, 2, 0⟩ [1] ⟨1, 0, false, [], none⟩ [] =
      (⟨1, 0, false, [], none⟩, []) ∧
    ((advanceToPrevPeriod ⟨4, 2, 0⟩ [1] ⟨2, 0, false, [], none⟩).remainingSeconds = 0 ∧
      (advanceToPrevPeriod ⟨4, 2, 0⟩ [1] ⟨2, 0, false, [], none⟩).isRunning = false) :=
  ⟨expired_period_guard.1 ⟨⟨1, 0, true, [], some 5⟩, [], []⟩ (by decide),
    expired_period_guard.2.1 10 ⟨4, 2, 0⟩ [1] ⟨1, 0, false, [], none⟩ [] (by decide),
    expired_period_guard.2.2 ⟨4, 2, 0⟩ [1] ⟨2, 0, false, [], none⟩ (by decide) (by decide)⟩

end ExpiredGuard

section ConservationRun

/-- External events driving the clock/ledger pair during the GAME phase
(no roster edits): a scheduler tick at wall-clock `now`, or a manual
adjustment request. -/
inductive RunEvent
  | tick (now : Int)
  | adjust (delta : Int)
deriving Repr, DecidableEq

/-- One event applied to the paired (clock, ledger) state, composed as
the code composes them: a tick runs the interval callback and then the
ledger pairing effect (src/App.tsx lines 778-788), which credits
`delta = prevRemaining - remaining` to the on-court players only when
the NEW state still has `isRunning = true` and the delta is positive; a
manual adjustment runs `adjustClockSeconds`, which applies the reverse
delta to the ledger itself (the pairing effect then skips because the
clock is stopped).  The interval is torn down while the clock is
stopped, so a tick on a stopped clock does not occur. -/
def runStep (cfg : GameConfig) (expiredPeriods : List Nat)
    (s : GameState × List PlayerStats) : RunEvent → GameState × List PlayerStats
  | RunEvent.tick now =>
    if s.1.isRunning then
      let gs' := tick now s.1
      let delta := s.1.remainingSeconds - gs'.remainingSeconds
      if gs'.isRunning ∧ 0 < delta then
        (gs', updatePlayerStats delta gs'.onCourtIds gs'.currentPeriod s.2)
      else (gs', s.2)
    else s
  | RunEvent.adjust delta => adjustClockSeconds delta cfg expiredPeriods s.1 s.2

/-- A whole event sequence applied in order. -/
def runSteps (cfg : GameConfig) (expiredPeriods : List Nat)
    (s : GameState × List PlayerStats) (es : List RunEvent) : GameState × List PlayerStats :=
  es.foldl (runStep cfg expiredPeriods) s

/-- The claim's right-hand side: over each step, the seconds consumed by
that step (the decrease in remaining time) times the number of present
ids at that step. -/
def consumedWeighted (cfg : GameConfig) (expiredPeriods : List Nat) :
    GameState × List PlayerStats → List RunEvent → Int
  | _, [] => 0
  | s, e :: es =>
    let s' := runStep cfg expiredPeriods s e
    (s.1.remainingSeconds - s'.1.remainingSeconds) * (s.1.onCourtIds.length : Int) +
      consumedWeighted cfg expiredPeriods s' es

theorem consumedWeighted_cons (cfg : GameConfig) (expiredPeriods : List Nat)
    (s : GameState × List PlayerStats) (e : RunEvent) (es : List RunEvent) :
    consumedWeighted cfg expiredPeriods s (e :: es) =
      (s.1.remainingSeconds - (runStep cfg expiredPeriods s e).1.remainingSeconds) *
          (s.1.onCourtIds.length : Int) +
        consumedWeighted cfg expiredPeriods (runStep cfg expiredPeriods s e) es := rfl

/-- Safety of one step for exact conservation: a tick must not be the
one that zeroes the clock (the auto-stop suppresses that tick's ledger
credit), and an adjustment that raises the clock must not be clamped at
any present participant's zero per-period floor. -/
def stepOk (cfg : GameConfig) (expiredPeriods : List Nat)
    (s : GameState × List PlayerStats) : RunEvent → Bool
  | RunEvent.tick now =>
    decide (s.1.remainingSeconds - (tick now s.1).remainingSeconds = 0) ||
      (tick now s.1).isRunning
  | RunEvent.adjust delta =>
    let actual := min (periodLengthSeconds cfg) (max 0 (s.1.remainingSeconds + delta)) -
      s.1.remainingSeconds
    decide (actual ≤ 0) ||
      s.2.all (fun r => !(decide (r.playerId ∈ s.1.onCourtIds)) ||
        decide (actual ≤ lookupPeriod r.periodMinutes s.1.currentPeriod))

/-- Safety of a whole sequence, checked along the run. -/
def stepsOk (cfg : GameConfig) (expiredPeriods : List Nat) :
    GameState × List PlayerStats → List RunEvent → Bool
  | _, [] => true
  | s, e :: es =>
    stepOk cfg expiredPeriods s e &&
      stepsOk cfg expiredPeriods (runStep cfg expiredPeriods s e) es

/-- Run-level well-formedness: every ledger record is well formed, the
on-court list and the ledger's player ids have no duplicates, and every
on-court id has a ledger record. -/
def runWF (s : GameState × List PlayerStats) : Prop :=
  statsWF s.2 ∧ s.1.onCourtIds.Nodup ∧
    (s.2.map PlayerStats.playerId).Nodup ∧
    ∀ id ∈ s.1.onCourtIds, id ∈ s.2.map PlayerStats.playerId

instance (s : GameState × List PlayerStats) : Decidable (runWF s) := by
  unfold runWF; infer_instance

theorem tick_onCourtIds (now : Int) (prev : GameState) :
    (tick now prev).onCourtIds = prev.onCourtIds := by
  unfold tick
  by_cases h1 : prev.remainingSeconds ≤ 0
  · rw [if_pos h1]
  · rw [if_neg h1]
    by_cases h2 : 1 ≤ Int.fdiv (now - jsOr prev.lastClockUpdate now) 1000
    · simp only [if_pos h2]
    · simp only [if_neg h2]

theorem tick_currentPeriod (now : Int) (prev : GameState) :
    (tick now prev).currentPeriod = prev.currentPeriod := by
  unfold tick
  by_cases h1 : prev.remainingSeconds ≤ 0
  · rw [if_pos h1]
  · rw [if_neg h1]
    by_cases h2 : 1 ≤ Int.fdiv (now - jsOr prev.lastClockUpdate now) 1000
    · simp only [if_pos h2]
    · simp only [if_neg h2]

theorem adjustClockSeconds_onCourtIds (delta : Int) (cfg : GameConfig)
    (expiredPeriods : List Nat) (gs : GameState) (stats : List PlayerStats) :
    (adjustClockSeconds delta cfg expiredPeriods gs stats).1.onCourtIds = gs.onCourtIds := by
  unfold adjustClockSeconds
  by_cases h1 : gs.isRunning
  · rw [if_pos h1]
  · rw [if_neg h1]
    by_cases h2 : gs.currentPeriod ∈ expiredPeriods
    · rw [if_pos h2]
    · rw [if_neg h2]
      by_cases h3 : min (periodLengthSeconds cfg) (max 0 (gs.remainingSeconds + delta)) -
          gs.remainingSeconds = 0
      · simp only [if_pos h3]
      · simp only [if_neg h3]

theorem map_playerId_updatePlayerStats (d : Int) (oc : List String) (p : Nat)
    (stats : List PlayerStats) :
    (updatePlayerStats d oc p stats).map PlayerStats.playerId =
      stats.map PlayerStats.playerId := by
  unfold updatePlayerStats
  by_cases hg : d = 0 ∨ oc = []
  · rw [if_pos hg]
  · rw [if_neg hg, List.map_map]
    refine List.map_congr_left ?_
    intro r _
    exact updateOne_playerId d oc p r

theorem adjustClockSeconds_map_playerId (delta : Int) (cfg : GameConfig)
    (expiredPeriods : List Nat) (gs : GameState) (stats : List PlayerStats) :
    (adjustClockSeconds delta cfg expiredPeriods gs stats).2.map PlayerStats.playerId =
      stats.map PlayerStats.playerId := by
  unfold adjustClockSeconds
  by_cases h1 : gs.isRunning
  · rw [if_pos h1]
  · rw [if_neg h1]
    by_cases h2 : gs.currentPeriod ∈ expiredPeriods
    · rw [if_pos h2]
    · rw [if_neg h2]
      by_cases h3 : min (periodLengthSeconds cfg) (max 0 (gs.remainingSeconds + delta)) -
          gs.remainingSeconds = 0
      · simp only [if_pos h3]
      · simp only [if_neg h3]
        exact map_playerId_updatePlayerStats _ _ _ _

theorem adjustClockSeconds_statsWF (delta : Int) (cfg : GameConfig)
    (expiredPeriods : List Nat) (gs : GameState) (stats : List PlayerStats)
    (h : statsWF stats) :
    statsWF (adjustClockSeconds delta cfg expiredPeriods gs stats).2 := by
  unfold adjustClockSeconds
  by_cases h1 : gs.isRunning
  · rw [if_pos h1]; exact h
  · rw [if_neg h1]
    by_cases h2 : gs.currentPeriod ∈ expiredPeriods
    · rw [if_pos h2]; exact h
    · rw [if_neg h2]
      by_cases h3 : min (periodLengthSeconds cfg) (max 0 (gs.remainingSeconds + delta)) -
          gs.remainingSeconds = 0
      · simp only [if_pos h3]; exact h
      · simp only [if_neg h3]
        exact statsWF_updatePlayerStats h

theorem runStep_onCourtIds (cfg : GameConfig) (expiredPeriods : List Nat)
    (s : GameState × List PlayerStats) (e : RunEvent) :
    (runStep cfg expiredPeriods s e).1.onCourtIds = s.1.onCourtIds := by
  cases e with
  | tick now =>
    unfold runStep
    by_cases h1 : s.1.isRunning
    · simp only [if_pos h1]
      by_cases h2 : (tick now s.1).isRunning = true ∧
          0 < s.1.remainingSeconds - (tick now s.1).remainingSeconds
      · simp only [if_pos h2]
        exact tick_onCourtIds now s.1
      · simp only [if_neg h2]
        exact tick_onCourtIds now s.1
    · simp only [if_neg h1]
  | adjust delta =>
    exact adjustClockSeconds_onCourtIds delta cfg expiredPeriods s.1 s.2

theorem runStep_runWF (cfg : GameConfig) (expiredPeriods : List Nat)
    (s : GameState × List PlayerStats) (e : RunEvent) (h : runWF s) :
    runWF (runStep cfg expiredPeriods s e) := by
  obtain ⟨hwf, hnd, hids, hsub⟩ := h
  have hoc := runStep_onCourtIds cfg expiredPeriods s e
  cases e with
  | tick now =>
    unfold runStep
    by_cases h1 : s.1.isRunning
    · simp only [if_pos h1]
      by_cases h2 : (tick now s.1).isRunning = true ∧
          0 < s.1.remainingSeconds - (tick now s.1).remainingSeconds
      · simp only [if_pos h2]
        refine ⟨statsWF_updatePlayerStats hwf, by rw [tick_onCourtIds]; exact hnd, ?_, ?_⟩
        · rw [map_playerId_updatePlayerStats]
          exact hids
        · intro id hid
          rw [map_playerId_updatePlayerStats]
          rw [tick_onCourtIds] at hid
          exact hsub id hid
      · simp only [if_neg h2]
        exact ⟨hwf, by rw [tick_onCourtIds]; exact hnd, hids,
          fun id hid => hsub id (by rw [tick_onCourtIds] at hid; exact hid)⟩
    · simp only [if_neg h1]
      exact ⟨hwf, hnd, hids, hsub⟩
  | adjust delta =>
    show runWF (adjustClockSeconds delta cfg expiredPeriods s.1 s.2)
    refine ⟨adjustClockSeconds_statsWF delta cfg expiredPeriods s.1 s.2 hwf, ?_, ?_, ?_⟩
    · rw [adjustClockSeconds_onCourtIds]
      exact hnd
    · rw [adjustClockSeconds_map_playerId]
      exact hids
    · intro id hid
      rw [adjustClockSeconds_map_playerId]
      rw [adjustClockSeconds_onCourtIds] at hid
      exact hsub id hid

theorem countP_mem_of_nodup (ids oc : List String) (hids : ids.Nodup) (hoc : oc.Nodup)
    (hsub : ∀ x ∈ oc, x ∈ ids) :
    ids.countP (fun i => decide (i ∈ oc)) = oc.length := by
  rw [List.countP_eq_length_filter]
  have hfn : (ids.filter (fun i => decide (i ∈ oc))).Nodup := hids.filter _
  have hset : (ids.filter (fun i => decide (i ∈ oc))).toFinset = oc.toFinset := by
    ext x
    simp only [List.mem_toFinset, List.mem_filter, decide_eq_true_eq]
    exact ⟨fun h => h.2, fun h => ⟨hsub x h, h⟩⟩
  calc (ids.filter (fun i => decide (i ∈ oc))).length
      = (ids.filter (fun i => decide (i ∈ oc))).toFinset.card :=
        (List.toFinset_card_of_nodup hfn).symm
    _ = oc.toFinset.card := by rw [hset]
    _ = oc.length := List.toFinset_card_of_nodup hoc

theorem sumTotals_map_updateOne (d : Int) (oc : List String) (p : Nat)
    (stats : List PlayerStats) (hwf : statsWF stats)
    (hcl : ∀ r ∈ stats, r.playerId ∈ oc → 0 ≤ lookupPeriod r.periodMinutes p + d) :
    sumTotals (stats.map (updateOne d oc p)) =
      sumTotals stats + d * (stats.countP (fun r => decide (r.playerId ∈ oc)) : Int) := by
  induction stats with
  | nil => simp [sumTotals]
  | cons r t ih =>
    have hwfr : recordWF r := hwf r (by simp)
    have hwft : statsWF t := fun x hx => hwf x (by simp [hx])
    have hclt : ∀ x ∈ t, x.playerId ∈ oc → 0 ≤ lookupPeriod x.periodMinutes p + d :=
      fun x hx => hcl x (by simp [hx])
    have iht := ih hwft hclt
    unfold sumTotals at iht ⊢
    simp only [List.map_cons, List.sum_cons, List.countP_cons]
    by_cases hmem : r.playerId ∈ oc
    · rw [updateOne_total hwfr hmem (hcl r (by simp) hmem)]
      have hd : decide (r.playerId ∈ oc) = true := by simpa
      rw [hd, iht]
      simp only [if_true]
      push_cast
      ring
    · rw [updateOne_not_mem hmem]
      have hd : decide (r.playerId ∈ oc) = false := by simpa
      rw [hd, iht]
      simp only [Bool.false_eq_true, if_false]
      push_cast
      ring

theorem sumTotals_updatePlayerStats (d : Int) (oc : List String) (p : Nat)
    (stats : List PlayerStats) (hwf : statsWF stats)
    (hnd : oc.Nodup) (hids : (stats.map PlayerStats.playerId).Nodup)
    (hsub : ∀ id ∈ oc, id ∈ stats.map PlayerStats.playerId)
    (hcl : ∀ r ∈ stats, r.playerId ∈ oc → 0 ≤ lookupPeriod r.periodMinutes p + d) :
    sumTotals (updatePlayerStats d oc p stats) =
      sumTotals stats + d * (oc.length : Int) := by
  unfold updatePlayerStats
  by_cases hg : d = 0 ∨ oc = []
  · rw [if_pos hg]
    rcases hg with h | h
    · rw [h]; ring
    · rw [h]; simp
  · rw [if_neg hg]
    rw [sumTotals_map_updateOne d oc p stats hwf hcl]
    have hcount : stats.countP (fun r => decide (r.playerId ∈ oc)) = oc.length := by
      have hm := countP_mem_of_nodup (stats.map PlayerStats.playerId) oc hids hnd hsub
      rw [List.countP_map] at hm
      exact hm
    rw [hcount]

theorem tick_remaining_le_of_pos (now : Int) (prev : GameState)
    (h1 : ¬ prev.remainingSeconds ≤ 0) :
    (tick now prev).remainingSeconds ≤ prev.remainingSeconds := by
  unfold tick
  rw [if_neg h1]
  by_cases h2 : 1 ≤ Int.fdiv (now - jsOr prev.lastClockUpdate now) 1000
  · simp only [if_pos h2]
    omega
  · simp only [if_neg h2]
    exact le_refl _

theorem tick_not_running_of_nonpos (now : Int) (prev : GameState)
    (h1 : prev.remainingSeconds ≤ 0) : (tick now prev).isRunning = false := by
  unfold tick
  rw [if_pos h1]

theorem runStep_sumTotals (cfg : GameConfig) (expiredPeriods : List Nat)
    (s : GameState × List PlayerStats) (e : RunEvent)
    (h : runWF s) (hok : stepOk cfg expiredPeriods s e = true) :
    sumTotals (runStep cfg expiredPeriods s e).2 =
      sumTotals s.2 +
        (s.1.remainingSeconds - (runStep cfg expiredPeriods s e).1.remainingSeconds) *
          (s.1.onCourtIds.length : Int) := by
  obtain ⟨hwf, hnd, hids, hsub⟩ := h
  cases e with
  | tick now =>
    unfold runStep
    by_cases h1 : s.1.isRunning
    · simp only [if_pos h1]
      by_cases h2 : (tick now s.1).isRunning = true ∧
          0 < s.1.remainingSeconds - (tick now s.1).remainingSeconds
      · simp only [if_pos h2]
        have hcl : ∀ r ∈ s.2, r.playerId ∈ (tick now s.1).onCourtIds →
            0 ≤ lookupPeriod r.periodMinutes (tick now s.1).currentPeriod +
              (s.1.remainingSeconds - (tick now s.1).remainingSeconds) := by
          intro r hr _
          have := lookup_nonneg (l := r.periodMinutes)
            (p := (tick now s.1).currentPeriod) (hwf r hr).2.1
          omega
        rw [sumTotals_updatePlayerStats _ _ _ _ hwf
          (by rw [tick_onCourtIds]; exact hnd) hids
          (by rw [tick_onCourtIds]; exact hsub) hcl]
        rw [tick_onCourtIds]
      · simp only [if_neg h2]
        have hdelta : s.1.remainingSeconds - (tick now s.1).remainingSeconds = 0 := by
          simp only [stepOk, Bool.or_eq_true] at hok
          rcases hok with hz | hr
          · exact of_decide_eq_true hz
          · push_neg at h2
            have hle := h2 hr
            by_cases hp : s.1.remainingSeconds ≤ 0
            · rw [tick_not_running_of_nonpos now s.1 hp] at hr
              simp at hr
            · have := tick_remaining_le_of_pos now s.1 hp
              omega
        rw [hdelta]
        ring
    · simp only [if_neg h1]
      ring
  | adjust delta =>
    show sumTotals (adjustClockSeconds delta cfg expiredPeriods s.1 s.2).2 =
      sumTotals s.2 +
        (s.1.remainingSeconds -
          (adjustClockSeconds delta cfg expiredPeriods s.1 s.2).1.remainingSeconds) *
          (s.1.onCourtIds.length : Int)
    unfold adjustClockSeconds
    by_cases hr : s.1.isRunning
    · rw [if_pos hr]
      ring
    · rw [if_neg hr]
      by_cases he : s.1.currentPeriod ∈ expiredPeriods
      · rw [if_pos he]
        ring
      · rw [if_neg he]
        set a := min (periodLengthSeconds cfg) (max 0 (s.1.remainingSeconds + delta)) -
          s.1.remainingSeconds with ha
        by_cases h0 : a = 0
        · simp only [if_pos h0]
          ring
        · simp only [if_neg h0]
          have hcl : ∀ r ∈ s.2, r.playerId ∈ s.1.onCourtIds →
              0 ≤ lookupPeriod r.periodMinutes s.1.currentPeriod + (-a) := by
            intro r hr' hmem
            have hnn := lookup_nonneg (l := r.periodMinutes)
              (p := s.1.currentPeriod) (hwf r hr').2.1
            simp only [stepOk, Bool.or_eq_true] at hok
            rcases hok with hz | hall
            · have hz' : min (periodLengthSeconds cfg)
                  (max 0 (s.1.remainingSeconds + delta)) - s.1.remainingSeconds ≤ 0 :=
                of_decide_eq_true hz
              omega
            · have hall' := List.all_eq_true.mp hall r hr'
              rw [Bool.or_eq_true] at hall'
              rcases hall' with hmem' | hle
              · have hdf : decide (r.playerId ∈ s.1.onCourtIds) = false := by
                  simpa using hmem'
                rw [decide_eq_false_iff_not] at hdf
                exact absurd hmem hdf
              · have hle' : min (periodLengthSeconds cfg)
                    (max 0 (s.1.remainingSeconds + delta)) - s.1.remainingSeconds ≤
                      lookupPeriod r.periodMinutes s.1.currentPeriod :=
                  of_decide_eq_true hle
                omega
          rw [sumTotals_updatePlayerStats _ _ _ _ hwf hnd hids hsub hcl]
          ring_nf

/-- C1, counterexample: one on-court participant, remaining = 2 s,
clock running with resume stamp 1000 ms.  A single tick at
now = 3005 ms consumes 2 seconds and zeroes the clock; the auto-stop
flips `isRunning` to false in the same update, so the ledger pairing
effect skips the credit, and the sum of totals stays 0 while the claim's
right-hand side is 2 × 1 = 2. -/
theorem conservation_counterexample :
    sumTotals (runSteps ⟨4, 2, 0⟩ []
        (⟨1, 2, true, ["p1"], some 1000⟩, [⟨"p1", [], 0⟩]) [RunEvent.tick 3005]).2 ≠
      sumTotals [⟨"p1", [], 0⟩] +
        consumedWeighted ⟨4, 2, 0⟩ []
          (⟨1, 2, true, ["p1"], some 1000⟩, [⟨"p1", [], 0⟩]) [RunEvent.tick 3005] := by
  decide

/-- C1, amended: conservation of time holds exactly for every sequence
of ticks and manual adjustments (with no roster edits) in which no tick
is the one that zeroes the clock (the auto-stop suppresses that tick's
ledger credit) and no clock-raising adjustment is clamped at a present
participant's zero per-period floor: under those step conditions, the
sum over all participants' total seconds changes by exactly the sum over
each step of the seconds consumed in that step times the number of
present ids at that step, for any sequence length. -/
theorem conservation_of_time (cfg : GameConfig) (expiredPeriods : List Nat)
    (es : List RunEvent) (s : GameState × List PlayerStats)
    (h : runWF s) (hok : stepsOk cfg expiredPeriods s es = true) :
    sumTotals (runSteps cfg expiredPeriods s es).2 =
      sumTotals s.2 + consumedWeighted cfg expiredPeriods s es := by
  induction es generalizing s with
  | nil => simp [runSteps, consumedWeighted]
  | cons e es ih =>
    unfold stepsOk at hok
    rw [Bool.and_eq_true] at hok
    obtain ⟨h1, h2⟩ := hok
    have hrec := ih (runStep cfg expiredPeriods s e)
      (runStep_runWF cfg expiredPeriods s e h) h2
    unfold runSteps at hrec ⊢
    rw [List.foldl_cons, hrec, consumedWeighted_cons]
    rw [runStep_sumTotals cfg expiredPeriods s e ⟨h.1, h.2.1, h.2.2.1, h.2.2.2⟩ h1]
    ring

/-- Witness for C1 at a concrete input: two participants on court for a
2-second tick (clock stays running), then a −3 s adjustment request that
the running-clock guard ignores. -/
theorem conservation_of_time_witness :
    sumTotals (runSteps ⟨4, 2, 0⟩ []
        (⟨1, 10, true, ["p1", "p2"], some 1000⟩, [⟨"p1", [], 0⟩, ⟨"p2", [], 0⟩])
        [RunEvent.tick 3005, RunEvent.adjust (-3)]).2 =
      sumTotals [⟨"p1", [], 0⟩, ⟨"p2", [], 0⟩] +
        consumedWeighted ⟨4, 2, 0⟩ []
          (⟨1, 10, true, ["p1", "p2"], some 1000⟩, [⟨"p1", [], 0⟩, ⟨"p2", [], 0⟩])
          [RunEvent.tick 3005, RunEvent.adjust (-3)] :=
  conservation_of_time ⟨4, 2, 0⟩ []
    [RunEvent.tick 3005, RunEvent.adjust (-3)]
    (⟨1, 10, true, ["p1", "p2"], some 1000⟩, [⟨"p1", [], 0⟩, ⟨"p2", [], 0⟩])
    (by decide) (by decide)

end ConservationRun

section Substitution

/-- Model of `handleSubstitution` (src/App.tsx lines 1184-1198) acting on
the on-court id list: remove every outgoing id, then append those
incoming ids that are neither already present after removal nor in the
outgoing set.  No validation is performed here. -/
def handleSubstitution (outgoingIds incomingIds prev : List String) : List String :=
  let remaining := prev.filter (fun id => decide (id ∉ outgoingIds))
  let additions := incomingIds.filter
    (fun id => decide (id ∉ remaining) && decide (id ∉ outgoingIds))
  remaining ++ additions

/-- Model of the modal's `canConfirm` check
(src/components/SubstitutionModal.tsx line 30): nonempty outgoing list
and equal outgoing/incoming counts — the only implemented validation. -/
def canConfirm (outgoingIds incomingIds : List String) : Bool :=
  decide (0 < outgoingIds.length) && decide (outgoingIds.length = incomingIds.length)

/-- Model of the modal's `handleConfirm`
(src/components/SubstitutionModal.tsx lines 56-62): when `canConfirm`
fails, `onConfirm` is never invoked and the presence list is untouched;
otherwise the request is handed to `handleSubstitution`. -/
def confirmSubstitution (outgoingIds incomingIds prev : List String) : List String :=
  if canConfirm outgoingIds incomingIds then
    handleSubstitution outgoingIds incomingIds prev
  else prev

/-- C5, counterexample: the request (outgoing = ["x"], incoming = ["f"])
against the lineup a…e fails the claimed validation ("x" is not
present), yet the operation mutates the presence set: the equal-count
check passes, "x" removes nothing, and "f" is appended, growing the
lineup to six. -/
theorem substitution_counterexample :
    confirmSubstitution ["x"] ["f"] ["a", "b", "c", "d", "e"] =
      ["a", "b", "c", "d", "e", "f"] ∧
    confirmSubstitution ["x"] ["f"] ["a", "b", "c", "d", "e"] ≠
      ["a", "b", "c", "d", "e"] := by
  decide

/-- C5, amended: the only implemented validation is the modal's
equal-nonzero-count check, and a request failing IT leaves the presence
list unchanged; a well-formed equal-count request (distinct outgoing ids
all currently present, incoming ids disjoint from the presence list and
from the outgoing set) preserves the lineup size.  Requests with
duplicate ids, an absent outgoing id, or a non-disjoint incoming id are
NOT rejected: they pass the count check and do mutate the presence set
(see the counterexample). -/
theorem substitution_spec :
    (∀ outgoingIds incomingIds prev : List String,
      canConfirm outgoingIds incomingIds = false →
        confirmSubstitution outgoingIds incomingIds prev = prev) ∧
    (∀ outgoingIds incomingIds prev : List String,
      prev.Nodup → outgoingIds.Nodup →
      (∀ x ∈ outgoingIds, x ∈ prev) →
      (∀ x ∈ incomingIds, x ∉ prev ∧ x ∉ outgoingIds) →
      outgoingIds.length = incomingIds.length →
        (confirmSubstitution outgoingIds incomingIds prev).length = prev.length) := by
  constructor
  · intro outgoingIds incomingIds prev h
    unfold confirmSubstitution
    rw [h]
    simp
  · intro outgoingIds incomingIds prev hprev hout hsub hinc hlen
    unfold confirmSubstitution
    by_cases hc : canConfirm outgoingIds incomingIds = true
    · rw [if_pos hc]
      have hcnt : prev.countP (fun id => decide (id ∈ outgoingIds)) =
          outgoingIds.length := countP_mem_of_nodup prev outgoingIds hprev hout hsub
      have key : ∀ l : List String,
          (l.filter (fun id => decide (id ∉ outgoingIds))).length +
            l.countP (fun id => decide (id ∈ outgoingIds)) = l.length := by
        intro l
        induction l with
        | nil => simp
        | cons a t ih =>
          simp only [decide_not] at ih ⊢
          by_cases ha : a ∈ outgoingIds <;>
            simp [List.filter_cons, List.countP_cons, ha] <;> omega
      have hrem : (prev.filter (fun id => decide (id ∉ outgoingIds))).length =
          prev.length - outgoingIds.length := by
        have := key prev
        omega
      have hsubl : List.Sublist (prev.filter (fun id => decide (id ∉ outgoingIds))) prev :=
        List.filter_sublist prev
      have hadd : incomingIds.filter
          (fun id => decide (id ∉ prev.filter (fun x => decide (x ∉ outgoingIds))) &&
            decide (id ∉ outgoingIds)) = incomingIds := by
        refine List.filter_eq_self.mpr ?_
        intro x hx
        have hx1 : x ∉ prev := (hinc x hx).1
        have hx2 : x ∉ outgoingIds := (hinc x hx).2
        have hx3 : x ∉ prev.filter (fun y => decide (y ∉ outgoingIds)) :=
          fun hmem => hx1 (hsubl.mem hmem)
        simp [hx1, hx2, hx3]
      have hle : outgoingIds.length ≤ prev.length := by
        have := key prev
        omega
      show ((prev.filter (fun id => decide (id ∉ outgoingIds))) ++
        incomingIds.filter
          (fun id => decide (id ∉ prev.filter (fun x => decide (x ∉ outgoingIds))) &&
            decide (id ∉ outgoingIds))).length = prev.length
      rw [List.length_append, hrem, hadd]
      omega
    · rw [if_neg hc]

/-- Witness for C5 at a concrete input: a valid 2-for-2 swap on a
5-player lineup keeps the size at 5, and a count-mismatched request is
rejected untouched. -/
theorem substitution_spec_witness :
    (confirmSubstitution ["a", "b"] ["f", "g"] ["a", "b", "c", "d", "e"]).length =
      (["a", "b", "c", "d", "e"] : List String).length ∧
    confirmSubstitution ["a"] ["f", "g"] ["a", "b", "c", "d", "e"] =
      ["a", "b", "c", "d", "e"] :=
  ⟨substitution_spec.2 ["a", "b"] ["f", "g"] ["a", "b", "c", "d", "e"]
      (by decide) (by decide) (by decide) (by decide) (by decide),
    substitution_spec.1 ["a"] ["f", "g"] ["a", "b", "c", "d", "e"] (by decide)⟩

end Substitution

section History

/-- Retention cap `HISTORY_LIMIT` (src/App.tsx line 34). -/
def HISTORY_LIMIT : Nat := 20

/-- Model of `GameHistoryEntry`, restricted to the fields the claims
touch.  `completedAt` is an ISO timestamp in the code, compared through
`new Date(x).getTime()`; it is modeled directly by that epoch value.
`normalizeHistoryEntry` only rewrites the `configSnapshot` and
`teamSnapshot` fields, so it is the identity on everything modeled here
and is omitted. -/
structure GameHistoryEntry where
  id : String
  completedAt : Int
  outcome : String
  durationSeconds : Int
deriving Repr, DecidableEq

/-- Model of `sortHistoryEntries` (src/App.tsx lines 96-98): stable sort
by completion time, newest first. -/
def sortHistoryEntries (entries : List GameHistoryEntry) : List GameHistoryEntry :=
  List.insertionSort (fun a b => b.completedAt ≤ a.completedAt) entries

/-- One `Map.set` step of the merge loop in `mergeHistoryEntries`
(src/App.tsx lines 100-108): entries with a falsy (empty) id are
skipped; `Map.set` keeps the first-insertion position of a key but
overwrites its value, so the LAST entry with a given id wins. -/
def dedupeStep (m : List (String × GameHistoryEntry)) (entry : GameHistoryEntry) :
    List (String × GameHistoryEntry) :=
  if entry.id = "" then m
  else if entry.id ∈ m.map Prod.fst then
    m.map (fun kv => if kv.1 = entry.id then (entry.id, entry) else kv)
  else m ++ [(entry.id, entry)]

/-- The whole Map-building loop over `[...primary, ...secondary]`. -/
def dedupeById (entries : List GameHistoryEntry) : List (String × GameHistoryEntry) :=
  entries.foldl dedupeStep []

/-- Model of `mergeHistoryEntries` (src/App.tsx lines 100-108): build the
id-keyed map over primary then secondary, take its values, sort newest
first, and keep at most `HISTORY_LIMIT` entries. -/
def mergeHistoryEntries (primary secondary : List GameHistoryEntry) :
    List GameHistoryEntry :=
  (sortHistoryEntries ((dedupeById (primary ++ secondary)).map Prod.snd)).take
    HISTORY_LIMIT

theorem lookup_entry_cons (k : String) (b : GameHistoryEntry)
    (t : List (String × GameHistoryEntry)) (q : String) :
    List.lookup q ((k, b) :: t) = if q = k then some b else List.lookup q t := by
  by_cases h : q = k
  · simp [List.lookup, h]
  · have hb : (q == k) = false := by simpa using h
    simp [List.lookup, hb, h]

theorem lookup_entry_not_mem {m : List (String × GameHistoryEntry)} {q : String}
    (h : q ∉ m.map Prod.fst) : List.lookup q m = none := by
  induction m with
  | nil => rfl
  | cons kv t ih =>
    obtain ⟨k, w⟩ := kv
    simp only [List.map_cons, List.mem_cons, not_or] at h
    rw [lookup_entry_cons, if_neg h.1]
    exact ih h.2

theorem lookup_entry_replace_self {m : List (String × GameHistoryEntry)} {k : String}
    {v : GameHistoryEntry} (hp : k ∈ m.map Prod.fst) :
    List.lookup k (m.map (fun kv => if kv.1 = k then (k, v) else kv)) = some v := by
  induction m with
  | nil => simp at hp
  | cons kv t ih =>
    obtain ⟨a, b⟩ := kv
    by_cases ha : a = k
    · subst ha
      have hc : (((a, b) : String × GameHistoryEntry).1 = a) := rfl
      rw [List.map_cons, if_pos hc, lookup_entry_cons, if_pos rfl]
    · simp only [List.map_cons, ha, if_false]
      rw [lookup_entry_cons, if_neg (fun hc => ha hc.symm)]
      refine ih ?_
      simp only [List.map_cons, List.mem_cons] at hp
      rcases hp with hp | hp
      · exact absurd hp.symm ha
      · exact hp

theorem lookup_entry_replace_other {m : List (String × GameHistoryEntry)} {k q : String}
    {v : GameHistoryEntry} (hq : q ≠ k) :
    List.lookup q (m.map (fun kv => if kv.1 = k then (k, v) else kv)) =
      List.lookup q m := by
  induction m with
  | nil => rfl
  | cons kv t ih =>
    obtain ⟨a, b⟩ := kv
    by_cases ha : a = k
    · subst ha
      have hc : (((a, b) : String × GameHistoryEntry).1 = a) := rfl
      rw [List.map_cons, if_pos hc, lookup_entry_cons, lookup_entry_cons,
        if_neg hq, if_neg hq]
      exact ih
    · simp only [List.map_cons, ha, if_false]
      rw [lookup_entry_cons, lookup_entry_cons]
      by_cases hqa : q = a
      · rw [if_pos hqa, if_pos hqa]
      · rw [if_neg hqa, if_neg hqa]
        exact ih

theorem lookup_entry_append_single {m : List (String × GameHistoryEntry)} {k : String}
    {v : GameHistoryEntry} (hp : k ∉ m.map Prod.fst) :
    List.lookup k (m ++ [(k, v)]) = some v := by
  induction m with
  | nil => simp [lookup_entry_cons]
  | cons kv t ih =>
    obtain ⟨a, b⟩ := kv
    simp only [List.map_cons, List.mem_cons, not_or] at hp
    rw [List.cons_append, lookup_entry_cons, if_neg hp.1]
    exact ih hp.2

theorem lookup_entry_append_other {m : List (String × GameHistoryEntry)} {k q : String}
    {v : GameHistoryEntry} (hq : q ≠ k) :
    List.lookup q (m ++ [(k, v)]) = List.lookup q m := by
  induction m with
  | nil => simp [lookup_entry_cons, hq]
  | cons kv t ih =>
    obtain ⟨a, b⟩ := kv
    rw [List.cons_append, lookup_entry_cons, lookup_entry_cons]
    by_cases hqa : q = a
    · rw [if_pos hqa, if_pos hqa]
    · rw [if_neg hqa, if_neg hqa]
      exact ih

theorem lookup_dedupeStep (m : List (String × GameHistoryEntry))
    (e : GameHistoryEntry) (q : String) (hq : q ≠ "") :
    List.lookup q (dedupeStep m e) =
      if e.id = q then some e else List.lookup q m := by
  unfold dedupeStep
  by_cases h0 : e.id = ""
  · rw [if_pos h0, if_neg (show ¬ e.id = q from fun hc => hq (hc.symm.trans h0))]
  · rw [if_neg h0]
    by_cases hmem : e.id ∈ m.map Prod.fst
    · rw [if_pos hmem]
      by_cases heq : e.id = q
      · rw [if_pos heq]
        subst heq
        exact lookup_entry_replace_self hmem
      · rw [if_neg heq]
        exact lookup_entry_replace_other (fun hc => heq hc.symm)
    · rw [if_neg hmem]
      by_cases heq : e.id = q
      · rw [if_pos heq]
        subst heq
        exact lookup_entry_append_single hmem
      · rw [if_neg heq]
        exact lookup_entry_append_other (fun hc => heq hc.symm)

theorem lookup_foldl_dedupe (entries : List GameHistoryEntry)
    (m : List (String × GameHistoryEntry)) (q : String) (hq : q ≠ "") :
    List.lookup q (entries.foldl dedupeStep m) =
      match (entries.filter (fun e => decide (e.id = q))).getLast? with
      | some e => some e
      | none => List.lookup q m := by
  induction entries using List.reverseRecOn generalizing m with
  | nil => rfl
  | append_singleton es e ih =>
    rw [List.foldl_append, List.foldl_cons, List.foldl_nil,
      lookup_dedupeStep _ _ _ hq, List.filter_append]
    by_cases he : e.id = q
    · rw [if_pos he]
      have : List.filter (fun e => decide (e.id = q)) [e] = [e] := by simp [he]
      rw [this, List.getLast?_concat]
    · rw [if_neg he]
      have : List.filter (fun e => decide (e.id = q)) [e] = [] := by simp [he]
      rw [this, List.append_nil]
      exact ih m

theorem mem_snd_of_lookup_entry {m : List (String × GameHistoryEntry)} {q : String}
    {e : GameHistoryEntry} (h : List.lookup q m = some e) : e ∈ m.map Prod.snd := by
  induction m with
  | nil => simp [List.lookup] at h
  | cons kv t ih =>
    obtain ⟨a, b⟩ := kv
    rw [lookup_entry_cons] at h
    by_cases hqa : q = a
    · rw [if_pos hqa] at h
      simp only [List.map_cons, List.mem_cons]
      exact Or.inl (Option.some_injective _ h).symm
    · rw [if_neg hqa] at h
      simp only [List.map_cons, List.mem_cons]
      exact Or.inr (ih h)

instance : IsTotal GameHistoryEntry (fun a b => b.completedAt ≤ a.completedAt) :=
  ⟨fun a b => le_total b.completedAt a.completedAt⟩

instance : IsTrans GameHistoryEntry (fun a b => b.completedAt ≤ a.completedAt) :=
  ⟨fun _ _ _ hab hbc => le_trans hbc hab⟩

/-- C8, counterexample: the remote (primary) record for id "x" has the
newer timestamp 100, the local (secondary) record the older timestamp
50; the merge keeps the LOCAL record — the `Map.set` loop makes the
secondary list win unconditionally, not remote-wins-on-newer-timestamp. -/
theorem mergeHistory_counterexample :
    mergeHistoryEntries [⟨"x", 100, "COMPLETE", 10⟩] [⟨"x", 50, "COMPLETE", 10⟩] =
      [⟨"x", 50, "COMPLETE", 10⟩] ∧
    (⟨"x", 100, "COMPLETE", 10⟩ : GameHistoryEntry) ∉
      mergeHistoryEntries [⟨"x", 100, "COMPLETE", 10⟩] [⟨"x", 50, "COMPLETE", 10⟩] := by
  decide

/-- C8, amended: the merged list is sorted by completion time (newest
first) and holds at most the retention limit of records, but when an id
exists in both lists the survivor is the SECONDARY (local) entry — the
last one written into the id-keyed map — regardless of timestamps; it
appears in the merged output whenever the deduplicated map fits the
retention limit. -/
theorem mergeHistoryEntries_spec :
    (∀ primary secondary : List GameHistoryEntry,
      (mergeHistoryEntries primary secondary).length ≤ HISTORY_LIMIT) ∧
    (∀ primary secondary : List GameHistoryEntry,
      (mergeHistoryEntries primary secondary).Pairwise
        (fun a b => b.completedAt ≤ a.completedAt)) ∧
    (∀ (primary secondary : List GameHistoryEntry) (q : String) (e : GameHistoryEntry),
      q ≠ "" →
      (secondary.filter (fun x => decide (x.id = q))).getLast? = some e →
        List.lookup q (dedupeById (primary ++ secondary)) = some e ∧
        ((dedupeById (primary ++ secondary)).length ≤ HISTORY_LIMIT →
          e ∈ mergeHistoryEntries primary secondary)) := by
  refine ⟨?_, ?_, ?_⟩
  · intro primary secondary
    exact List.length_take_le _ _
  · intro primary secondary
    have hs : List.Sorted (fun a b : GameHistoryEntry => b.completedAt ≤ a.completedAt)
        (sortHistoryEntries ((dedupeById (primary ++ secondary)).map Prod.snd)) :=
      List.sorted_insertionSort _ _
    exact List.Pairwise.sublist (List.take_sublist _ _) hs
  · intro primary secondary q e hq hlast
    have hlookup : List.lookup q (dedupeById (primary ++ secondary)) = some e := by
      unfold dedupeById
      rw [lookup_foldl_dedupe _ _ _ hq, List.filter_append]
      have hne : secondary.filter (fun x => decide (x.id = q)) ≠ [] := by
        intro hnil
        rw [hnil] at hlast
        simp at hlast
      rw [List.getLast?_append_of_ne_nil _ hne, hlast]
    refine ⟨hlookup, ?_⟩
    intro hlen
    have hmem : e ∈ (dedupeById (primary ++ secondary)).map Prod.snd :=
      mem_snd_of_lookup_entry hlookup
    have hperm : List.Perm
        (sortHistoryEntries ((dedupeById (primary ++ secondary)).map Prod.snd))
        ((dedupeById (primary ++ secondary)).map Prod.snd) :=
      List.perm_insertionSort _ _
    have hmem' : e ∈ sortHistoryEntries ((dedupeById (primary ++ secondary)).map Prod.snd) :=
      hperm.mem_iff.mpr hmem
    have hlen' : (sortHistoryEntries ((dedupeById (primary ++ secondary)).map Prod.snd)).length ≤
        HISTORY_LIMIT := by
      rw [hperm.length_eq, List.length_map]
      exact hlen
    unfold mergeHistoryEntries
    rw [List.take_of_length_le hlen']
    exact hmem'

/-- Witness for C8 at a concrete input: the local entry for id "x"
survives a merge with a remote list of two entries and appears in the
sorted, truncated output. -/
theorem mergeHistoryEntries_spec_witness :
    List.lookup "x" (dedupeById ([⟨"x", 100, "COMPLETE", 10⟩, ⟨"y", 70, "RESET", 5⟩] ++
        [⟨"x", 50, "COMPLETE", 10⟩])) = some ⟨"x", 50, "COMPLETE", 10⟩ ∧
    ((dedupeById ([⟨"x", 100, "COMPLETE", 10⟩, ⟨"y", 70, "RESET", 5⟩] ++
        [⟨"x", 50, "COMPLETE", 10⟩])).length ≤ HISTORY_LIMIT →
      (⟨"x", 50, "COMPLETE", 10⟩ : GameHistoryEntry) ∈
        mergeHistoryEntries [⟨"x", 100, "COMPLETE", 10⟩, ⟨"y", 70, "RESET", 5⟩]
          [⟨"x", 50, "COMPLETE", 10⟩]) :=
  mergeHistoryEntries_spec.2.2 [⟨"x", 100, "COMPLETE", 10⟩, ⟨"y", 70, "RESET", 5⟩]
    [⟨"x", 50, "COMPLETE", 10⟩] "x" ⟨"x", 50, "COMPLETE", 10⟩ (by decide) (by decide)

end History

section Archiver

/-- The archiver's state: the single-use `hasArchivedCurrentGame` ref
flag and the history list. -/
structure ArchiveState where
  hasArchived : Bool
  history : List GameHistoryEntry
deriving Repr, DecidableEq

/-- JS `Math.round(t / 5)` for an integer `t`: `t / 5` never lies exactly
halfway between two integers, so rounding to nearest equals
`floor((t + 2) / 5)`; `Int.fdiv` is floor division. -/
def roundDiv5 (t : Int) : Int :=
  Int.fdiv (t + 2) 5

/-- Model of `archiveCurrentGame` (src/App.tsx lines 647-688): no-op when
the single-use flag is already set, when the stats list is empty, or
when the total recorded player-seconds is zero; otherwise it marks the
flag and prepends a new record — whose `durationSeconds` is
`Math.round(totalPlayerSeconds / 5)` — to the history with any
same-id record removed and the list truncated to `HISTORY_LIMIT`.
`id` and `now` stand for the effectful `generateHistoryId()` and
`new Date().toISOString()`; the roster/config/stats snapshots and the
analysis text are not modeled fields. -/
def archiveCurrentGame (stats : List PlayerStats) (outcome : String) (id : String)
    (now : Int) (st : ArchiveState) : ArchiveState :=
  if st.hasArchived then st
  else if stats.length = 0 then st
  else if sumTotals stats = 0 then st
  else
    let entry : GameHistoryEntry := ⟨id, now, outcome, roundDiv5 (sumTotals stats)⟩
    { hasArchived := true
      history :=
        (entry :: st.history.filter (fun h => decide (h.id ≠ entry.id))).take
          HISTORY_LIMIT }

/-- One archiver invocation with its (stats, outcome, id, now) inputs. -/
def archiveFold (st : ArchiveState)
    (inputs : List (List PlayerStats × String × String × Int)) : ArchiveState :=
  inputs.foldl (fun acc i => archiveCurrentGame i.1 i.2.1 i.2.2.1 i.2.2.2 acc) st

theorem archiveCurrentGame_of_archived (stats : List PlayerStats) (outcome id : String)
    (now : Int) (st : ArchiveState) (h : st.hasArchived = true) :
    archiveCurrentGame stats outcome id now st = st := by
  unfold archiveCurrentGame
  rw [if_pos h]

theorem archiveFold_of_archived (inputs : List (List PlayerStats × String × String × Int))
    (st : ArchiveState) (h : st.hasArchived = true) : archiveFold st inputs = st := by
  induction inputs with
  | nil => rfl
  | cons i rest ih =>
    unfold archiveFold
    rw [List.foldl_cons, archiveCurrentGame_of_archived _ _ _ _ _ h]
    exact ih

/-- C7: idempotent archiving.  Once the single-use flag is set, any
further sequence of archive invocations (any outcomes, any
interleaving) is a no-op on the whole state; and starting from an
un-archived session, any sequence of invocations either leaves the
history untouched or appends exactly one record (every invocation after
the first successful one being a no-op). -/
theorem archive_idempotent :
    (∀ (inputs : List (List PlayerStats × String × String × Int)) (st : ArchiveState),
      st.hasArchived = true → archiveFold st inputs = st) ∧
    (∀ (inputs : List (List PlayerStats × String × String × Int)) (st : ArchiveState),
      st.hasArchived = false →
        (archiveFold st inputs).history = st.history ∨
        ∃ e : GameHistoryEntry,
          (archiveFold st inputs).history =
            (e :: st.history.filter (fun h => decide (h.id ≠ e.id))).take HISTORY_LIMIT) := by
  refine ⟨archiveFold_of_archived, ?_⟩
  intro inputs st h
  induction inputs generalizing st with
  | nil => exact Or.inl rfl
  | cons i rest ih =>
    have hcons : archiveFold st (i :: rest) =
        archiveFold (archiveCurrentGame i.1 i.2.1 i.2.2.1 i.2.2.2 st) rest := rfl
    rw [hcons]
    have hflag : ¬ (st.hasArchived = true) := by simp [h]
    by_cases h1 : i.1.length = 0
    · have hid : archiveCurrentGame i.1 i.2.1 i.2.2.1 i.2.2.2 st = st := by
        unfold archiveCurrentGame
        rw [if_neg hflag, if_pos h1]
      rw [hid]
      exact ih st h
    · by_cases h2 : sumTotals i.1 = 0
      · have hid : archiveCurrentGame i.1 i.2.1 i.2.2.1 i.2.2.2 st = st := by
          unfold archiveCurrentGame
          rw [if_neg hflag, if_neg h1, if_pos h2]
        rw [hid]
        exact ih st h
      · have harch : archiveCurrentGame i.1 i.2.1 i.2.2.1 i.2.2.2 st =
            { hasArchived := true
              history :=
                ((⟨i.2.2.1, i.2.2.2, i.2.1, roundDiv5 (sumTotals i.1)⟩ : GameHistoryEntry) ::
                    st.history.filter (fun hh => decide (hh.id ≠ i.2.2.1))).take
                  HISTORY_LIMIT } := by
          unfold archiveCurrentGame
          rw [if_neg hflag, if_neg h1, if_neg h2]
        rw [harch, archiveFold_of_archived rest _ rfl]
        exact Or.inr ⟨⟨i.2.2.1, i.2.2.2, i.2.1, roundDiv5 (sumTotals i.1)⟩, rfl⟩

/-- Witness for C7 at a concrete input: two racing archive calls on the
same un-archived session (one COMPLETE trigger, one RESET trigger)
append at most one record to an initially empty history. -/
theorem archive_idempotent_witness :
    (archiveFold ⟨false, []⟩
        [([⟨"p1", [(1, 10)], 10⟩], "COMPLETE", "h1", 111),
          ([⟨"p1", [(1, 10)], 10⟩], "RESET", "h2", 222)]).history = [] ∨
    ∃ e : GameHistoryEntry,
      (archiveFold ⟨false, []⟩
          [([⟨"p1", [(1, 10)], 10⟩], "COMPLETE", "h1", 111),
            ([⟨"p1", [(1, 10)], 10⟩], "RESET", "h2", 222)]).history =
        (e :: List.filter (fun hh => decide (hh.id ≠ e.id)) []).take HISTORY_LIMIT :=
  archive_idempotent.2
    [([⟨"p1", [(1, 10)], 10⟩], "COMPLETE", "h1", 111),
      ([⟨"p1", [(1, 10)], 10⟩], "RESET", "h2", 222)] ⟨false, []⟩ rfl

theorem roundDiv5_five_mul (e : Int) : roundDiv5 (5 * e) = e := by
  unfold roundDiv5
  rw [Int.fdiv_eq_ediv _ (by norm_num)]
  omega

/-- C9, counterexample: a session in which 10 seconds of game time
elapsed with only FOUR players on court (reachable by removing a player
mid-game, claim C10).  The archived `durationSeconds` is
`Math.round(40 / 5) = 8`, not the 10 elapsed seconds the claim
requires. -/
theorem archive_duration_counterexample :
    (archiveCurrentGame
        (updatePlayerStats 10 ["p1", "p2", "p3", "p4"] 1
          [⟨"p1", [], 0⟩, ⟨"p2", [], 0⟩, ⟨"p3", [], 0⟩, ⟨"p4", [], 0⟩])
        "RESET" "h1" 999 ⟨false, []⟩).history =
      [⟨"h1", 999, "RESET", 8⟩] ∧ (8 : Int) ≠ 10 := by
  decide

/-- C9, amended: archiving computes
`durationSeconds = Math.round(totalPlayerSeconds / 5)`; this equals the
session's total elapsed game seconds exactly when the total recorded
player-seconds is five times the elapsed time — i.e. when exactly five
participants accrued every second — and in that case a first archive
call produces the record at the head of the history with
`durationSeconds = elapsed`. -/
theorem archive_duration_spec (stats : List PlayerStats) (outcome id : String)
    (now : Int) (st : ArchiveState) (elapsed : Int)
    (h0 : st.hasArchived = false) (hne : stats.length ≠ 0)
    (hsum : sumTotals stats = 5 * elapsed) (hpos : 0 < elapsed) :
    (archiveCurrentGame stats outcome id now st).history.head? =
      some ⟨id, now, outcome, elapsed⟩ := by
  have hflag : ¬ (st.hasArchived = true) := by simp [h0]
  have hnz : ¬ (sumTotals stats = 0) := by
    rw [hsum]
    intro hc
    omega
  unfold archiveCurrentGame
  rw [if_neg hflag, if_neg hne, if_neg hnz]
  have hdur : roundDiv5 (sumTotals stats) = elapsed := by
    rw [hsum]
    exact roundDiv5_five_mul elapsed
  simp only [hdur]
  rw [show HISTORY_LIMIT = 19 + 1 from rfl, List.take_succ_cons]
  rfl

/-- Witness for C9 at a concrete input: five players with 10 seconds
each (elapsed = 10 s, totalPlayerSeconds = 50) archive to a record with
durationSeconds = 10. -/
theorem archive_duration_spec_witness :
    (archiveCurrentGame
        [⟨"p1", [(1, 10)], 10⟩, ⟨"p2", [(1, 10)], 10⟩, ⟨"p3", [(1, 10)], 10⟩,
          ⟨"p4", [(1, 10)], 10⟩, ⟨"p5", [(1, 10)], 10⟩]
        "RESET" "h1" 999 ⟨false, []⟩).history.head? =
      some ⟨"h1", 999, "RESET", 10⟩ :=
  archive_duration_spec
    [⟨"p1", [(1, 10)], 10⟩, ⟨"p2", [(1, 10)], 10⟩, ⟨"p3", [(1, 10)], 10⟩,
      ⟨"p4", [(1, 10)], 10⟩, ⟨"p5", [(1, 10)], 10⟩]
    "RESET" "h1" 999 ⟨false, []⟩ 10 rfl (by decide) (by decide) (by decide)

end Archiver

section RosterRemoval

/-- Model of `Player` from `types.ts`. -/
structure Player where
  id : String
  name : String
  number : String
deriving Repr, DecidableEq

/-- Model of `Team` from `types.ts`. -/
structure Team where
  id : String
  name : String
  players : List Player
deriving Repr, DecidableEq

/-- The slices of App state that `handleRemovePlayer` touches. -/
structure RosterState where
  teams : List Team
  selectedTeamId : Option String
  onCourtIds : List String
  stats : List PlayerStats
  gameState : GameState
deriving Repr, DecidableEq

/-- Model of `handleRemovePlayer` (src/App.tsx lines 1116-1128): the
player is filtered out of the named team's roster; when that team is the
selected one, the id is also filtered out of both on-court lists and the
player's ledger record is deleted.  There is no phase guard — this runs
mid-game as well. -/
def handleRemovePlayer (teamId playerId : String) (s : RosterState) : RosterState :=
  let teams' := s.teams.map (fun t =>
    if t.id = teamId then
      { t with players := t.players.filter (fun pl => decide (pl.id ≠ playerId)) }
    else t)
  if s.selectedTeamId = some teamId then
    { s with
      teams := teams'
      onCourtIds := s.onCourtIds.filter (fun x => decide (x ≠ playerId))
      stats := s.stats.filter (fun st => decide (st.playerId ≠ playerId))
      gameState := { s.gameState with
        onCourtIds := s.gameState.onCourtIds.filter (fun x => decide (x ≠ playerId)) } }
  else { s with teams := teams' }

/-- C10: removing a player from the currently selected team (at any
time, including mid-game) filters that id out of both on-court id lists
and deletes the player's entire ledger record; every other player's
record survives unchanged, and the removed id no longer appears
anywhere in the presence lists or the ledger. -/
theorem handleRemovePlayer_spec (teamId playerId : String) (s : RosterState)
    (hsel : s.selectedTeamId = some teamId) :
    (handleRemovePlayer teamId playerId s).onCourtIds =
        s.onCourtIds.filter (fun x => decide (x ≠ playerId)) ∧
    (handleRemovePlayer teamId playerId s).gameState.onCourtIds =
        s.gameState.onCourtIds.filter (fun x => decide (x ≠ playerId)) ∧
    (handleRemovePlayer teamId playerId s).stats =
        s.stats.filter (fun st => decide (st.playerId ≠ playerId)) ∧
    playerId ∉ (handleRemovePlayer teamId playerId s).onCourtIds ∧
    playerId ∉ (handleRemovePlayer teamId playerId s).gameState.onCourtIds ∧
    (∀ r ∈ (handleRemovePlayer teamId playerId s).stats, r.playerId ≠ playerId) ∧
    (∀ r ∈ s.stats, r.playerId ≠ playerId →
      r ∈ (handleRemovePlayer teamId playerId s).stats) ∧
    (∀ t ∈ (handleRemovePlayer teamId playerId s).teams, t.id = teamId →
      ∀ pl ∈ t.players, pl.id ≠ playerId) := by
  have hbody : handleRemovePlayer teamId playerId s =
      { s with
        teams := s.teams.map (fun t =>
          if t.id = teamId then
            { t with players := t.players.filter (fun pl => decide (pl.id ≠ playerId)) }
          else t)
        onCourtIds := s.onCourtIds.filter (fun x => decide (x ≠ playerId))
        stats := s.stats.filter (fun st => decide (st.playerId ≠ playerId))
        gameState := { s.gameState with
          onCourtIds := s.gameState.onCourtIds.filter (fun x => decide (x ≠ playerId)) } } := by
    unfold handleRemovePlayer
    rw [if_pos hsel]
  rw [hbody]
  refine ⟨rfl, rfl, rfl, ?_, ?_, ?_, ?_, ?_⟩
  · intro hmem
    have := (List.mem_filter.mp hmem).2
    simp at this
  · intro hmem
    have := (List.mem_filter.mp hmem).2
    simp at this
  · intro r hr
    have := (List.mem_filter.mp hr).2
    simpa using this
  · intro r hr hne
    exact List.mem_filter.mpr ⟨hr, by simpa using hne⟩
  · intro t ht htid pl hpl
    obtain ⟨t0, ht0, hmap⟩ := List.mem_map.mp ht
    by_cases hid : t0.id = teamId
    · rw [if_pos hid] at hmap
      rw [← hmap] at hpl
      have := (List.mem_filter.mp hpl).2
      simpa using this
    · rw [if_neg hid] at hmap
      rw [← hmap] at htid
      exact absurd htid hid

/-- Witness for C10 at a concrete input: removing on-court player "p3"
from the selected team mid-game drops the lineup from 5 to 4 (below the
required size) and deletes p3's 30-second ledger record while p1's
record survives. -/
theorem handleRemovePlayer_spec_witness :
    (handleRemovePlayer "t1" "p3"
        ⟨[⟨"t1", "Team 1", [⟨"p1", "A", "1"⟩, ⟨"p2", "B", "2"⟩, ⟨"p3", "C", "3"⟩,
            ⟨"p4", "D", "4"⟩, ⟨"p5", "E", "5"⟩]⟩],
          some "t1", ["p1", "p2", "p3", "p4", "p5"],
          [⟨"p1", [(1, 30)], 30⟩, ⟨"p3", [(1, 30)], 30⟩],
          ⟨1, 90, false, ["p1", "p2", "p3", "p4", "p5"], none⟩⟩).stats =
      [⟨"p1", [(1, 30)], 30⟩] ∧
    (handleRemovePlayer "t1" "p3"
        ⟨[⟨"t1", "Team 1", [⟨"p1", "A", "1"⟩, ⟨"p2", "B", "2"⟩, ⟨"p3", "C", "3"⟩,
            ⟨"p4", "D", "4"⟩, ⟨"p5", "E", "5"⟩]⟩],
          some "t1", ["p1", "p2", "p3", "p4", "p5"],
          [⟨"p1", [(1, 30)], 30⟩, ⟨"p3", [(1, 30)], 30⟩],
          ⟨1, 90, false, ["p1", "p2", "p3", "p4", "p5"], none⟩⟩).onCourtIds.length = 4 :=
  ⟨by
    have := (handleRemovePlayer_spec "t1" "p3"
      ⟨[⟨"t1", "Team 1", [⟨"p1", "A", "1"⟩, ⟨"p2", "B", "2"⟩, ⟨"p3", "C", "3"⟩,
          ⟨"p4", "D", "4"⟩, ⟨"p5", "E", "5"⟩]⟩],
        some "t1", ["p1", "p2", "p3", "p4", "p5"],
        [⟨"p1", [(1, 30)], 30⟩, ⟨"p3", [(1, 30)], 30⟩],
        ⟨1, 90, false, ["p1", "p2", "p3", "p4", "p5"], none⟩⟩ rfl).2.2.1
    rw [this]
    decide,
  by
    have := (handleRemovePlayer_spec "t1" "p3"
      ⟨[⟨"t1", "Team 1", [⟨"p1", "A", "1"⟩, ⟨"p2", "B", "2"⟩, ⟨"p3", "C", "3"⟩,
          ⟨"p4", "D", "4"⟩, ⟨"p5", "E", "5"⟩]⟩],
        some "t1", ["p1", "p2", "p3", "p4", "p5"],
        [⟨"p1", [(1, 30)], 30⟩, ⟨"p3", [(1, 30)], 30⟩],
        ⟨1, 90, false, ["p1", "p2", "p3", "p4", "p5"], none⟩⟩ rfl).1
    rw [this]
    decide⟩

end RosterRemoval

end Hooptime
